import Mathlib

/-!
Verification development for the monocular 2D-to-3D reconstruction pipeline
(files karl-homo-toy-cars.py and utils/utils.py).

Point clouds are modelled as lists of rational triples, depth maps as lists of
rows of integers, and 4x4 homogeneous matrices as lists of rational rows.
Each Lean definition below is a shallow embedding of the correspondingly named
Python function; the module-level registration loop of karl-homo-toy-cars.py is
embedded as registerSequence.
-/

set_option maxHeartbeats 1000000

abbrev Pt2 : Type := ℚ × ℚ

abbrev Pt3 : Type := ℚ × ℚ × ℚ

abbrev Pt4 : Type := ℚ × ℚ × ℚ × ℚ

abbrev Mat4 : Type := List (List ℚ)

/-- Wrapping of an integer into the int16 range, as performed by the
numpy cast astype(int16) on line 66 of karl-homo-toy-cars.py and line 41 of
utils/utils.py. -/
def wrap16 (d : Int) : Int := (d + 32768) % 65536 - 32768

/-- One row of the meshgrid/stack construction of depth_to_voxel: for a row of
depth samples at height y, starting at abscissa x, produce the triples
(x, y, wrap16 d * scale) in order of increasing x. -/
def rowPoints (scale y : Int) : Int → List Int → List (Int × Int × Int)
  | _, [] => []
  | x, d :: ds => (x, y, wrap16 d * scale) :: rowPoints scale y (x + 1) ds

/-- The full row-major pixel grid of depth_to_voxel before filtering: rows are
emitted top to bottom, each scanned left to right (the reshape of the stacked
meshgrid to an n x 3 array in the source). -/
def gridPoints (scale : Int) : Int → List (List Int) → List (Int × Int × Int)
  | _, [] => []
  | y, row :: rows => rowPoints scale y 0 row ++ gridPoints scale (y + 1) rows

/-- Embedding of depth_to_voxel (utils/utils.py lines 21-45; the copy in
karl-homo-toy-cars.py lines 46-70 is textually identical): build the pixel grid
(x, y, depth * scale) in row-major order, with the depth sample cast to int16,
then keep exactly the triples whose third component is nonzero. -/
def Utils.depth_to_voxel (img : List (List Int)) (scale : Int) : List (Int × Int × Int) :=
  (gridPoints scale 0 img).filter (fun p => p.2.2 != 0)

/-- Pixel access in a depth map: row y, column x. -/
def pixelAt (img : List (List Int)) (x y : Nat) : Option Int :=
  (img.get? y).bind (fun row => row.get? x)

/-- Dot product of one matrix row with a homogeneous 4-vector, as performed
componentwise by np.dot for a 4x4 matrix. -/
def dot4 (r : List ℚ) (v : Pt4) : ℚ :=
  r.getD 0 0 * v.1 + r.getD 1 0 * v.2.1 + r.getD 2 0 * v.2.2.1 + r.getD 3 0 * v.2.2.2

/-- Product of a 4x4 matrix with a homogeneous 4-vector. -/
def matVec4 (M : Mat4) (v : Pt4) : Pt4 :=
  (dot4 (M.getD 0 []) v, dot4 (M.getD 1 []) v, dot4 (M.getD 2 []) v, dot4 (M.getD 3 []) v)

/-- Embedding of get_transformed_points (karl-homo-toy-cars.py lines 85-100,
the normalizing variant): each point (x, y, z) is homogenized in the order
(y, x, z, 1), multiplied by the matrix, the first three result components are
divided by the fourth, and the output row is written in the order
(second, first, third) of the normalized components. -/
def Karl.get_transformed_points (keypoints : List Pt3) (H_matrix : Mat4) : List Pt3 :=
  keypoints.map (fun p =>
    let r := matVec4 H_matrix (p.2.1, p.1, p.2.2, 1)
    (r.2.1 / r.2.2.2, r.1 / r.2.2.2, r.2.2.1 / r.2.2.2))

/-- Embedding of get_transformed_points (utils/utils.py lines 92-101, the
variant without perspective divide): each point (x, y, z) is homogenized in
the order (y, x, z, 1), multiplied by the matrix, and the output row is the
result components in the order (second, first, third); the fourth component is
discarded. -/
def Utils.get_transformed_points (keypoints : List Pt3) (H_matrix : Mat4) : List Pt3 :=
  keypoints.map (fun p =>
    let r := matVec4 H_matrix (p.2.1, p.1, p.2.2, 1)
    (r.2.1, r.1, r.2.2.1))

/-- The identity 4x4 homogeneous matrix. -/
def I4 : Mat4 := [[1, 0, 0, 0], [0, 1, 0, 0], [0, 0, 1, 0], [0, 0, 0, 1]]

/-- Translation by (1, 0, 0) as a 4x4 homogeneous matrix. -/
def T100 : Mat4 := [[1, 0, 0, 1], [0, 1, 0, 0], [0, 0, 1, 0], [0, 0, 0, 1]]

/-- Embedding of find_closest_3d_match (utils/utils.py lines 104-107; the copy
in karl-homo-toy-cars.py lines 138-141 is textually identical). The source
squares the componentwise differences of the n x 2 slice against the repeated
query point and then sums with axis=0, producing the pair of per-axis sums
(sum over points of (x - x0)^2, sum over points of (y - y0)^2); np.argmin of
that pair is 0 when the first sum is least or the sums tie, else 1, and the
point at that index is returned. An index outside the cloud (np raising
IndexError) is modelled as none. -/
def Utils.find_closest_3d_match (x0 y0 : ℚ) (matrix_3d : List Pt3) : Option Pt3 :=
  let sx : ℚ := (matrix_3d.map (fun p => (p.1 - x0) ^ 2)).sum
  let sy : ℚ := (matrix_3d.map (fun p => (p.2.1 - y0) ^ 2)).sum
  let index : Nat := if sx ≤ sy then 0 else 1
  matrix_3d.get? index

/-- The squared pixel-plane distance from a query (x0, y0) to the stored 2D
coordinates of a cloud point. -/
def sqDist2 (x0 y0 : ℚ) (p : Pt3) : ℚ := (p.1 - x0) ^ 2 + (p.2.1 - y0) ^ 2

/-- The inner loop of get_3d_kps: scan the cloud front to back and return the
first point satisfying the comparison, mirroring the for/if/break of the
source. -/
def scanFirst (p : Pt3 → Bool) : List Pt3 → Option Pt3
  | [] => none
  | v :: vs => if p v then some v else scanFirst p vs

/-- The comparison of utils/utils.py line 114: kp component 0 against point
component 0 and kp component 1 against point component 1. -/
def matchU (i : Pt2) (v : Pt3) : Bool := i.1 == v.1 && i.2 == v.2.1

/-- The comparison of karl-homo-toy-cars.py line 148: kp component 1 against
point component 0 and kp component 0 against point component 1. -/
def matchK (i : Pt2) (v : Pt3) : Bool := i.2 == v.1 && i.1 == v.2.1

/-- Embedding of get_3d_kps (utils/utils.py lines 110-118): for each requested
keypoint in order, append the first cloud point matching it under matchU, or
skip the keypoint when no point matches. -/
def Utils.get_3d_kps (voxels : List Pt3) : List Pt2 → List Pt3
  | [] => []
  | i :: rest =>
    match scanFirst (matchU i) voxels with
    | some v => v :: Utils.get_3d_kps voxels rest
    | none => Utils.get_3d_kps voxels rest

/-- Embedding of get_3d_kps (karl-homo-toy-cars.py lines 144-152): identical
to the utils version except that the comparison is matchK, with the keypoint
components read in swapped order. -/
def Karl.get_3d_kps (voxels : List Pt3) : List Pt2 → List Pt3
  | [] => []
  | i :: rest =>
    match scanFirst (matchK i) voxels with
    | some v => v :: Karl.get_3d_kps voxels rest
    | none => Karl.get_3d_kps voxels rest

/-- Embedding of the two get_3d_kps call sites inside the pairwise H-matrix
loop of karl-homo-toy-cars.py (lines 252-253). In the source these lines read
input_voxels[0] and input_voxels[1] with literal indices: the loop variable i
does not occur in them, so the same two clouds are used on every iteration.
The argument list records the keypoints of the current pair of images. -/
def Karl.pair3dKps (input_voxels : List (List Pt3)) (orginal_points keypoints_prime : List Pt2) :
    List Pt3 × List Pt3 :=
  (Karl.get_3d_kps (input_voxels.getD 0 []) orginal_points,
   Karl.get_3d_kps (input_voxels.getD 1 []) keypoints_prime)

/-- Modelled from the spec: the module homo3d imported by karl-homo-toy-cars.py
is not part of the repository sources, so its transform applicator
get_transformed_points is modelled from section 4.4 of the specification:
homogenize each point to (x, y, z, 1), multiply by the 4x4 matrix, and use the
first three result components directly (the affine/rigid case without
perspective divide). -/
def Homo3d.get_transformed_points (keypoints : List Pt3) (H_matrix : Mat4) : List Pt3 :=
  keypoints.map (fun p =>
    let r := matVec4 H_matrix (p.1, p.2.1, p.2.2, 1)
    (r.1, r.2.1, r.2.2.1))

/-- Embedding of the module-level registration loop of karl-homo-toy-cars.py
(lines 265-269): the cloud of frame 0 is emitted unchanged, and the cloud of
every later frame i is emitted as homo3d.get_transformed_points applied to the
raw cloud of frame i and the single pairwise matrix h_matrixes[i-1]. -/
def registerSequence (input_voxels : List (List Pt3)) (h_matrixes : List Mat4) :
    List (List Pt3) :=
  match input_voxels with
  | [] => []
  | v0 :: rest =>
    v0 :: (rest.zip h_matrixes).map (fun vh => Homo3d.get_transformed_points vh.1 vh.2)

/-- Three one-point clouds sitting at the origin, used as a concrete frame
sequence. -/
def demoClouds : List (List Pt3) := [[(0, 0, 0)], [(0, 0, 0)], [(0, 0, 0)]]

/-- Three one-point clouds at pairwise distinct positions, used as a concrete
frame sequence for the correspondence-source check. -/
def demoVoxels3 : List (List Pt3) := [[(1, 1, 10)], [(2, 2, 20)], [(3, 3, 30)]]

/-- The karl comparison on a keypoint coincides with the utils comparison on
the keypoint with swapped components. -/
theorem matchK_eq_matchU_swap (i : Pt2) : matchK i = matchU (i.2, i.1) := rfl

/-- Identity matrix acts as identity on homogeneous 4-vectors. -/
theorem matVec4_I4 (v : Pt4) : matVec4 I4 v = v := by
  obtain ⟨a, b, c, d⟩ := v
  simp [matVec4, dot4, I4]

/-- C8 (counterexample): on the one-point cloud (1, 2, 9) and the single
keypoint (1, 2), the karl lookup returns the empty list while the utils lookup
returns the point, so the two implementations do not return identical result
lists. -/
theorem C8_counterexample :
    Karl.get_3d_kps [(1, 2, 9)] [(1, 2)] = [] ∧
    Utils.get_3d_kps [(1, 2, 9)] [(1, 2)] = [(1, 2, 9)] ∧
    Karl.get_3d_kps [(1, 2, 9)] [(1, 2)] ≠ Utils.get_3d_kps [(1, 2, 9)] [(1, 2)] := by
  refine ⟨?_, ?_, ?_⟩ <;>
    norm_num [Karl.get_3d_kps, Utils.get_3d_kps, scanFirst, matchK, matchU]

/-- C8 (amended): the karl implementation of get_3d_kps agrees with the utils
implementation exactly up to swapping the two components of every requested
keypoint; on keypoint lists that are not invariant under that swap relative to
the cloud the two results differ. -/
theorem C8_swap_equivalence (voxels : List Pt3) (kps : List Pt2) :
    Karl.get_3d_kps voxels kps = Utils.get_3d_kps voxels (kps.map (fun k => (k.2, k.1))) := by
  induction kps with
  | nil => rfl
  | cons i rest ih =>
    simp only [List.map_cons, Karl.get_3d_kps, Utils.get_3d_kps,
      ← matchK_eq_matchU_swap, ih]

/-- C6: applying the identity 4x4 transform with either variant of
get_transformed_points returns the input cloud exactly, point for point and in
order (the coordinate swaps performed on input and output cancel). -/
theorem C6_identity_apply (cloud : List Pt3) :
    Karl.get_transformed_points cloud I4 = cloud ∧
    Utils.get_transformed_points cloud I4 = cloud := by
  constructor <;>
  · induction cloud with
    | nil => rfl
    | cons p rest ih =>
      obtain ⟨x, y, z⟩ := p
      simp [Karl.get_transformed_points, Utils.get_transformed_points, matVec4_I4] at ih ⊢
      try exact ih

/-- C4 (counterexample): for the translation matrix T100 (translation by
(1, 0, 0)) and the single point (1, 2, 3), the claimed behaviour
M * (x, y, z, 1) followed by taking the first three components would give
(2, 2, 3), but both implementations return (1, 3, 3), because they homogenize
as (y, x, z, 1) and swap the first two output components back. -/
theorem C4_counterexample :
    Karl.get_transformed_points [(1, 2, 3)] T100 = [(1, 3, 3)] ∧
    Utils.get_transformed_points [(1, 2, 3)] T100 = [(1, 3, 3)] ∧
    (((1 : ℚ), (3 : ℚ), (3 : ℚ)) : Pt3) ≠ (((2 : ℚ), (2 : ℚ), (3 : ℚ)) : Pt3) := by
  refine ⟨?_, ?_, ?_⟩
  · norm_num [Karl.get_transformed_points, matVec4, dot4, T100]
  · norm_num [Utils.get_transformed_points, matVec4, dot4, T100]
  · norm_num

/-- C4 (amended): both applicators preserve length and order, homogenize each
input point (x, y, z) in the component order (y, x, z, 1), multiply by the 4x4
matrix, the karl variant divides the first three result components by the
fourth while the utils variant uses them directly, and both write the output
components in the order (second, first, third). -/
theorem C4_applicator_formula (keypoints : List Pt3) (H : Mat4) (i : Nat) :
    (Karl.get_transformed_points keypoints H).length = keypoints.length ∧
    (Utils.get_transformed_points keypoints H).length = keypoints.length ∧
    (Karl.get_transformed_points keypoints H).get? i =
      (keypoints.get? i).map (fun p =>
        ((matVec4 H (p.2.1, p.1, p.2.2, 1)).2.1 / (matVec4 H (p.2.1, p.1, p.2.2, 1)).2.2.2,
         (matVec4 H (p.2.1, p.1, p.2.2, 1)).1 / (matVec4 H (p.2.1, p.1, p.2.2, 1)).2.2.2,
         (matVec4 H (p.2.1, p.1, p.2.2, 1)).2.2.1 / (matVec4 H (p.2.1, p.1, p.2.2, 1)).2.2.2)) ∧
    (Utils.get_transformed_points keypoints H).get? i =
      (keypoints.get? i).map (fun p =>
        ((matVec4 H (p.2.1, p.1, p.2.2, 1)).2.1,
         (matVec4 H (p.2.1, p.1, p.2.2, 1)).1,
         (matVec4 H (p.2.1, p.1, p.2.2, 1)).2.2.1)) := by
  refine ⟨?_, ?_, ?_, ?_⟩ <;>
    simp [Karl.get_transformed_points, Utils.get_transformed_points, List.get?_map]

/-- C5 (divergence witness): on the cloud [(10,0,1), (0,10,2), (5,5,3)] and
query (5, 5), the axis-0 summation makes the implementation return the point
(10, 0, 1), although (5, 5, 3) has strictly smaller squared pixel-plane
distance to the query. -/
theorem C5_axis_zero_bug :
    Utils.find_closest_3d_match 5 5 [(10, 0, 1), (0, 10, 2), (5, 5, 3)] = some (10, 0, 1) ∧
    sqDist2 5 5 (((5 : ℚ), (5 : ℚ), (3 : ℚ)) : Pt3) <
      sqDist2 5 5 (((10 : ℚ), (0 : ℚ), (1 : ℚ)) : Pt3) := by
  constructor
  · norm_num [Utils.find_closest_3d_match]
  · norm_num [sqDist2]

/-- C3 (divergence witness): for the pair of frames 1 and 2 of the concrete
three-frame sequence demoVoxels3, the embedded call sites (which always read
clouds 0 and 1) resolve no 3D keypoints, while resolving against the clouds of
frames 1 and 2 themselves yields the expected points. -/
theorem C3_hardcoded_cloud_indices :
    Karl.pair3dKps demoVoxels3 [(2, 2)] [(3, 3)] = ([], []) ∧
    Karl.get_3d_kps (demoVoxels3.getD 1 []) [(2, 2)] = [(2, 2, 20)] ∧
    Karl.get_3d_kps (demoVoxels3.getD 2 []) [(3, 3)] = [(3, 3, 30)] := by
  refine ⟨?_, ?_, ?_⟩ <;>
    norm_num [Karl.pair3dKps, Karl.get_3d_kps, demoVoxels3, scanFirst, matchK]

/-- Indexing the zip-then-map construction of the registrar at a position
where both input lists are defined. -/
theorem get?_zip_map {α β γ : Type} (f : α × β → γ) (xs : List α) :
    ∀ (ys : List β) (j : Nat) (c : α) (H : β),
      xs.get? j = some c → ys.get? j = some H →
      ((xs.zip ys).map f).get? j = some (f (c, H)) := by
  induction xs with
  | nil => intro ys j c H h1 _; simp at h1
  | cons x xs ih =>
    intro ys j c H h1 h2
    cases ys with
    | nil => simp at h2
    | cons y ys =>
      cases j with
      | zero =>
        simp only [List.get?_cons_zero, Option.some.injEq] at h1 h2
        subst h1; subst h2
        rfl
      | succ j =>
        simp only [List.get?_cons_succ] at h1 h2
        simpa using ih ys j c H h1 h2

/-- C1 (counterexample): over three one-point clouds at the origin with both
pairwise transforms equal to the pure translation (1, 0, 0), the emitted cloud
of frame 2 sits at offset (1, 0, 0) from its raw coordinates, not at the
cumulative offset (2, 0, 0) that the claimed ordered composition of the two
pairwise transforms would produce. -/
theorem C1_counterexample :
    (registerSequence demoClouds [T100, T100]).get? 2 = some [(1, 0, 0)] ∧
    ¬ (registerSequence demoClouds [T100, T100]).get? 2 = some [((2 : ℚ), 0, 0)] := by
  constructor <;>
    norm_num [registerSequence, demoClouds, Homo3d.get_transformed_points, matVec4, dot4, T100]

/-- C1 (amended): the registration loop emits frame 0 unchanged and emits
every later frame i as the raw cloud of frame i transformed by the single
pairwise matrix h_matrixes[i-1] alone, with no composition of earlier
transforms; in particular, over three frames whose pairwise transforms are
both the pure translation (1, 0, 0), frame 2 is emitted at offset (1, 0, 0)
from its raw coordinates. -/
theorem C1_registrar_single_transform (input_voxels : List (List Pt3)) (h_matrixes : List Mat4) :
    (∀ v0 rest, input_voxels = v0 :: rest →
        (registerSequence input_voxels h_matrixes).get? 0 = some v0) ∧
    (∀ i c H, 0 < i → input_voxels.get? i = some c → h_matrixes.get? (i - 1) = some H →
        (registerSequence input_voxels h_matrixes).get? i =
          some (Homo3d.get_transformed_points c H)) ∧
    (registerSequence demoClouds [T100, T100]).get? 2 = some [(1, 0, 0)] := by
  refine ⟨?_, ?_, ?_⟩
  · rintro v0 rest rfl
    rfl
  · intro i c H hi hc hH
    cases input_voxels with
    | nil => simp at hc
    | cons v0 rest =>
      cases i with
      | zero => exact absurd hi (lt_irrefl 0)
      | succ j =>
        simp only [List.get?_cons_succ] at hc
        have hH2 : h_matrixes.get? j = some H := by simpa using hH
        simp only [registerSequence, List.get?_cons_succ]
        exact get?_zip_map _ rest h_matrixes j c H hc hH2
  · norm_num [registerSequence, demoClouds, Homo3d.get_transformed_points, matVec4, dot4, T100]

/-- C1 (witness): the amended registrar theorem instantiated on the concrete
three-frame sequence at frame 1 with its pairwise translation matrix. -/
theorem C1_registrar_witness :
    (registerSequence demoClouds [T100, T100]).get? 1 =
      some (Homo3d.get_transformed_points [((0 : ℚ), 0, 0)] T100) :=
  (C1_registrar_single_transform demoClouds [T100, T100]).2.1 1 [(0, 0, 0)] T100
    (Nat.zero_lt_one) rfl rfl

/-- A successful scan returns an element of the scanned cloud. -/
theorem scanFirst_mem {p : Pt3 → Bool} :
    ∀ {l : List Pt3} {v : Pt3}, scanFirst p l = some v → v ∈ l := by
  intro l
  induction l with
  | nil => intro v h; simp [scanFirst] at h
  | cons u us ih =>
    intro v h
    cases hu : p u with
    | true =>
      simp only [scanFirst, hu, if_true] at h
      cases h
      exact List.mem_cons_self u us
    | false =>
      simp only [scanFirst, hu, if_false] at h
      exact List.mem_cons_of_mem u (ih h)

/-- C10: every point returned by either coordinate-lookup implementation and
by the nearest-match fallback is, unmodified, an element of the input cloud;
no returned point is fabricated. -/
theorem C10_returned_points_in_cloud :
    (∀ (voxels : List Pt3) (kps : List Pt2) (v : Pt3),
        v ∈ Utils.get_3d_kps voxels kps → v ∈ voxels) ∧
    (∀ (voxels : List Pt3) (kps : List Pt2) (v : Pt3),
        v ∈ Karl.get_3d_kps voxels kps → v ∈ voxels) ∧
    (∀ (x0 y0 : ℚ) (cloud : List Pt3) (p : Pt3),
        Utils.find_closest_3d_match x0 y0 cloud = some p → p ∈ cloud) := by
  refine ⟨?_, ?_, ?_⟩
  · intro voxels kps
    induction kps with
    | nil => intro v h; simp [Utils.get_3d_kps] at h
    | cons i rest ih =>
      intro v h
      cases hs : scanFirst (matchU i) voxels with
      | none =>
        simp only [Utils.get_3d_kps, hs] at h
        exact ih v h
      | some u =>
        simp only [Utils.get_3d_kps, hs] at h
        rcases List.mem_cons.mp h with rfl | h2
        · exact scanFirst_mem hs
        · exact ih v h2
  · intro voxels kps
    induction kps with
    | nil => intro v h; simp [Karl.get_3d_kps] at h
    | cons i rest ih =>
      intro v h
      cases hs : scanFirst (matchK i) voxels with
      | none =>
        simp only [Karl.get_3d_kps, hs] at h
        exact ih v h
      | some u =>
        simp only [Karl.get_3d_kps, hs] at h
        rcases List.mem_cons.mp h with rfl | h2
        · exact scanFirst_mem hs
        · exact ih v h2
  · intro x0 y0 cloud p h
    simp only [Utils.find_closest_3d_match] at h
    exact List.get?_mem h

/-- C10 (witness): on the one-point cloud, the nearest-match fallback returns
that point and the theorem places it in the cloud. -/
theorem C10_witness :
    (((1 : ℚ), (2 : ℚ), (3 : ℚ)) : Pt3) ∈ ([((1 : ℚ), (2 : ℚ), (3 : ℚ))] : List Pt3) :=
  C10_returned_points_in_cloud.2.2 0 0 [(1, 2, 3)] (1, 2, 3)
    (by norm_num [Utils.find_closest_3d_match])

/-- A successful scan splits the cloud at the first matching point: everything
before the returned point fails the comparison. -/
theorem scanFirst_first {p : Pt3 → Bool} :
    ∀ {l : List Pt3} {v : Pt3}, scanFirst p l = some v →
      ∃ l1 l2, l = l1 ++ v :: l2 ∧ p v = true ∧ ∀ u ∈ l1, p u = false := by
  intro l
  induction l with
  | nil => intro v h; simp [scanFirst] at h
  | cons u us ih =>
    intro v h
    cases hu : p u with
    | true =>
      simp only [scanFirst, hu, if_true] at h
      cases h
      exact ⟨[], us, rfl, hu, by simp⟩
    | false =>
      simp only [scanFirst, hu, if_false] at h
      obtain ⟨l1, l2, hsplit, hv, hnone⟩ := ih h
      refine ⟨u :: l1, l2, by rw [hsplit]; rfl, hv, ?_⟩
      intro w hw
      rcases List.mem_cons.mp hw with rfl | hw2
      · exact hu
      · exact hnone w hw2

/-- The utils lookup is the filterMap of the per-request scan over the request
list: requests are processed in order and unmatched ones contribute nothing. -/
theorem get_3d_kps_eq_filterMap (voxels : List Pt3) (kps : List Pt2) :
    Utils.get_3d_kps voxels kps = kps.filterMap (fun k => scanFirst (matchU k) voxels) := by
  induction kps with
  | nil => rfl
  | cons i rest ih =>
    cases hs : scanFirst (matchU i) voxels with
    | none => simp [Utils.get_3d_kps, hs, List.filterMap_cons, ih]
    | some v => simp [Utils.get_3d_kps, hs, List.filterMap_cons, ih]

/-- The utils lookup never returns more points than were requested. -/
theorem get_3d_kps_length_le (voxels : List Pt3) (kps : List Pt2) :
    (Utils.get_3d_kps voxels kps).length ≤ kps.length := by
  induction kps with
  | nil => simp [Utils.get_3d_kps]
  | cons i rest ih =>
    cases hs : scanFirst (matchU i) voxels with
    | none =>
      simp only [Utils.get_3d_kps, hs, List.length_cons]
      exact Nat.le_succ_of_le ih
    | some v =>
      simp only [Utils.get_3d_kps, hs, List.length_cons]
      exact Nat.succ_le_succ ih

/-- When some request matches no cloud point, the utils lookup returns a
strictly shorter list than the request list. -/
theorem get_3d_kps_length_lt (voxels : List Pt3) (kps : List Pt2)
    (h : ∃ k ∈ kps, scanFirst (matchU k) voxels = none) :
    (Utils.get_3d_kps voxels kps).length < kps.length := by
  revert h
  induction kps with
  | nil => intro h; simp at h
  | cons i rest ih =>
    intro h
    obtain ⟨k, hk, hnone⟩ := h
    rcases List.mem_cons.mp hk with rfl | hk2
    · simp only [Utils.get_3d_kps, hnone, List.length_cons]
      exact Nat.lt_succ_of_le (get_3d_kps_length_le voxels rest)
    · cases hs : scanFirst (matchU i) voxels with
      | none =>
        simp only [Utils.get_3d_kps, hs, List.length_cons]
        exact Nat.lt_succ_of_le (get_3d_kps_length_le voxels rest)
      | some v =>
        simp only [Utils.get_3d_kps, hs, List.length_cons]
        exact Nat.succ_lt_succ (ih ⟨k, hk2, hnone⟩)

/-- C7: the exact-lookup resolver processes the requests in order and resolves
each to the first cloud point in cloud order matching it (everything earlier
in the cloud fails the comparison), drops each unmatched request without
error, and returns a strictly shorter list than the request list whenever some
request matches no cloud point. -/
theorem C7_exact_lookup (voxels : List Pt3) (kps : List Pt2) :
    Utils.get_3d_kps voxels kps = kps.filterMap (fun k => scanFirst (matchU k) voxels) ∧
    (∀ k v, scanFirst (matchU k) voxels = some v →
        ∃ l1 l2, voxels = l1 ++ v :: l2 ∧ matchU k v = true ∧ ∀ u ∈ l1, matchU k u = false) ∧
    ((∃ k ∈ kps, scanFirst (matchU k) voxels = none) →
        (Utils.get_3d_kps voxels kps).length < kps.length) :=
  ⟨get_3d_kps_eq_filterMap voxels kps,
   fun _ _ h => scanFirst_first h,
   fun h => get_3d_kps_length_lt voxels kps h⟩

/-- C7 (witness): with a one-point cloud and two requests of which the second
matches nothing, the resolver output is strictly shorter than the request
list. -/
theorem C7_witness :
    (Utils.get_3d_kps [((1 : ℚ), 2, 9)] [((1 : ℚ), 2), (7, 7)]).length < 2 :=
  (C7_exact_lookup [((1 : ℚ), 2, 9)] [((1 : ℚ), 2), (7, 7)]).2.2
    ⟨(7, 7), by norm_num, by norm_num [scanFirst, matchU]⟩

/-- Strict row-major order on emitted grid points: strictly earlier row, or
the same row and a strictly earlier column. -/
def pixLt (p q : Int × Int × Int) : Prop :=
  p.2.1 < q.2.1 ∨ (p.2.1 = q.2.1 ∧ p.1 < q.1)

/-- Membership in one emitted row: exactly the triples built from an indexed
sample of the row. -/
theorem mem_rowPoints {scale y : Int} {p : Int × Int × Int} :
    ∀ {x : Int} {ds : List Int}, (p ∈ rowPoints scale y x ds ↔
      ∃ (j : Nat) (d : Int), ds.get? j = some d ∧ p = (x + j, y, wrap16 d * scale)) := by
  intro x ds
  induction ds generalizing x with
  | nil => simp [rowPoints]
  | cons d ds ih =>
    simp only [rowPoints, List.mem_cons, ih]
    constructor
    · rintro (rfl | ⟨j, d2, hj, rfl⟩)
      · exact ⟨0, d, rfl, by simp⟩
      · refine ⟨j + 1, d2, by simpa using hj, ?_⟩
        have hx : x + 1 + (j : Int) = x + ((j : Int) + 1) := by ring
        simp [hx]
    · rintro ⟨j, d2, hj, rfl⟩
      cases j with
      | zero =>
        left
        simp only [List.get?_cons_zero, Option.some.injEq] at hj
        subst hj
        simp
      | succ j =>
        right
        refine ⟨j, d2, by simpa using hj, ?_⟩
        have hx : x + (((j : Nat) + 1 : Nat) : Int) = x + 1 + (j : Int) := by push_cast; ring
        rw [hx]

/-- Membership in the emitted grid: exactly the points of some emitted row,
with the row height shifted by the row index. -/
theorem mem_gridPoints {scale : Int} {p : Int × Int × Int} :
    ∀ {y : Int} {rows : List (List Int)}, (p ∈ gridPoints scale y rows ↔
      ∃ (i : Nat) (row : List Int), rows.get? i = some row ∧
        p ∈ rowPoints scale (y + i) 0 row) := by
  intro y rows
  induction rows generalizing y with
  | nil => simp [gridPoints]
  | cons row rows ih =>
    simp only [gridPoints, List.mem_append, ih]
    constructor
    · rintro (hp | ⟨i, r, hi, hp⟩)
      · exact ⟨0, row, rfl, by simpa using hp⟩
      · refine ⟨i + 1, r, by simpa using hi, ?_⟩
        have hy : y + (((i : Nat) + 1 : Nat) : Int) = y + 1 + (i : Int) := by push_cast; ring
        rw [hy]
        exact hp
    · rintro ⟨i, r, hi, hp⟩
      cases i with
      | zero =>
        left
        simp only [List.get?_cons_zero, Option.some.injEq] at hi
        subst hi
        simpa using hp
      | succ i =>
        right
        refine ⟨i, r, by simpa using hi, ?_⟩
        have hy : y + (((i : Nat) + 1 : Nat) : Int) = y + 1 + (i : Int) := by push_cast; ring
        rw [hy] at hp
        exact hp

/-- Membership in the converter output: exactly the pixels whose wrapped and
scaled depth is nonzero, at their own pixel coordinates. -/
theorem mem_depth_to_voxel {img : List (List Int)} {scale : Int} {p : Int × Int × Int} :
    p ∈ Utils.depth_to_voxel img scale ↔
      ∃ (x y : Nat) (d : Int), pixelAt img x y = some d ∧
        p = ((x : Int), (y : Int), wrap16 d * scale) ∧ wrap16 d * scale ≠ 0 := by
  unfold Utils.depth_to_voxel
  rw [List.mem_filter]
  constructor
  · rintro ⟨hmem, hz⟩
    rw [mem_gridPoints] at hmem
    obtain ⟨i, row, hi, hp⟩ := hmem
    rw [mem_rowPoints] at hp
    obtain ⟨j, d, hj, rfl⟩ := hp
    refine ⟨j, i, d, ?_, by simp, ?_⟩
    · rw [pixelAt, hi]
      exact hj
    · simpa using hz
  · rintro ⟨x, y, d, hpix, rfl, hz⟩
    simp only [pixelAt, Option.bind_eq_some] at hpix
    obtain ⟨row, hy, hx⟩ := hpix
    constructor
    · rw [mem_gridPoints]
      refine ⟨y, row, hy, ?_⟩
      rw [mem_rowPoints]
      exact ⟨x, d, hx, by simp⟩
    · simpa using hz

/-- Every point of an emitted row carries the height of that row. -/
theorem rowPoints_snd {scale y : Int} :
    ∀ {x : Int} {ds : List Int} {p : Int × Int × Int},
      p ∈ rowPoints scale y x ds → p.2.1 = y := by
  intro x ds
  induction ds generalizing x with
  | nil => intro p h; simp [rowPoints] at h
  | cons d ds ih =>
    intro p h
    rcases List.mem_cons.mp h with rfl | h2
    · rfl
    · exact ih h2

/-- Every point of an emitted row sits at or right of the starting column. -/
theorem rowPoints_fst_lb {scale y : Int} :
    ∀ {x : Int} {ds : List Int} {p : Int × Int × Int},
      p ∈ rowPoints scale y x ds → x ≤ p.1 := by
  intro x ds
  induction ds generalizing x with
  | nil => intro p h; simp [rowPoints] at h
  | cons d ds ih =>
    intro p h
    rcases List.mem_cons.mp h with rfl | h2
    · exact le_refl x
    · exact le_of_lt (lt_of_lt_of_le (lt_add_one x) (ih h2))

/-- The points of one emitted row have strictly increasing first components. -/
theorem rowPoints_pairwise {scale y : Int} :
    ∀ (x : Int) (ds : List Int),
      (rowPoints scale y x ds).Pairwise (fun p q => p.1 < q.1) := by
  intro x ds
  induction ds generalizing x with
  | nil => exact List.Pairwise.nil
  | cons d ds ih =>
    refine List.Pairwise.cons ?_ (ih (x + 1))
    intro q hq
    exact lt_of_lt_of_le (lt_add_one x) (rowPoints_fst_lb hq)

/-- Every grid point emitted from height y onward sits at height at least y. -/
theorem gridPoints_snd_lb {scale : Int} :
    ∀ {y : Int} {rows : List (List Int)} {p : Int × Int × Int},
      p ∈ gridPoints scale y rows → y ≤ p.2.1 := by
  intro y rows
  induction rows generalizing y with
  | nil => intro p h; simp [gridPoints] at h
  | cons row rows ih =>
    intro p h
    rcases List.mem_append.mp h with h1 | h2
    · exact le_of_eq (rowPoints_snd h1).symm
    · exact le_of_lt (lt_of_lt_of_le (lt_add_one y) (ih h2))

/-- The emitted grid is strictly ordered in row-major order. -/
theorem gridPoints_pairwise {scale : Int} :
    ∀ (y : Int) (rows : List (List Int)), (gridPoints scale y rows).Pairwise pixLt := by
  intro y rows
  induction rows generalizing y with
  | nil => exact List.Pairwise.nil
  | cons row rows ih =>
    rw [gridPoints, List.pairwise_append]
    refine ⟨?_, ih (y + 1), ?_⟩
    · refine (rowPoints_pairwise 0 row).imp_of_mem ?_
      intro p q hp hq hlt
      exact Or.inr ⟨(rowPoints_snd hp).trans (rowPoints_snd hq).symm, hlt⟩
    · intro p hp q hq
      left
      rw [rowPoints_snd hp]
      exact lt_of_lt_of_le (lt_add_one y) (gridPoints_snd_lb hq)

/-- The converter output is strictly ordered in row-major order: in
particular no pixel contributes two points. -/
theorem depth_to_voxel_pairwise (img : List (List Int)) (scale : Int) :
    (Utils.depth_to_voxel img scale).Pairwise pixLt :=
  (gridPoints_pairwise 0 img).sublist (List.filter_sublist _)

/-- C2 (counterexample): on the depth map [[5]] with scale 0, the pixel (0, 0)
has nonzero depth, so the claim demands exactly one emitted point for it, but
the implementation filters on the scaled depth and emits nothing. -/
theorem C2_counterexample :
    Utils.depth_to_voxel [[5]] 0 = [] ∧ (5 : Int) ≠ 0 := ⟨by decide, by decide⟩

/-- C2 (amended): every emitted point arises from a pixel (x, y) with sample
d and equals (x, y, wrap16 d * scale) with nonzero third component; every
pixel whose int16-wrapped sample times the scale is nonzero contributes its
point; the output is strictly row-major ordered, so each qualifying pixel
contributes exactly one point and no point has z = 0; and the 2x2 example
[[0, 5], [5, 0]] with scale 1 evaluates to [(1, 0, 5), (0, 1, 5)]. -/
theorem C2_depth_converter (img : List (List Int)) (scale : Int) :
    (∀ p ∈ Utils.depth_to_voxel img scale,
        ∃ (x y : Nat) (d : Int), pixelAt img x y = some d ∧
          p = ((x : Int), (y : Int), wrap16 d * scale) ∧ wrap16 d * scale ≠ 0) ∧
    (∀ (x y : Nat) (d : Int), pixelAt img x y = some d → wrap16 d * scale ≠ 0 →
        ((x : Int), (y : Int), wrap16 d * scale) ∈ Utils.depth_to_voxel img scale) ∧
    (∀ p ∈ Utils.depth_to_voxel img scale, p.2.2 ≠ 0) ∧
    (Utils.depth_to_voxel img scale).Pairwise pixLt ∧
    Utils.depth_to_voxel [[0, 5], [5, 0]] 1 = [(1, 0, 5), (0, 1, 5)] := by
  refine ⟨fun p hp => mem_depth_to_voxel.mp hp,
          fun x y d h1 h2 => mem_depth_to_voxel.mpr ⟨x, y, d, h1, rfl, h2⟩,
          fun p hp => ?_,
          depth_to_voxel_pairwise img scale,
          by decide⟩
  obtain ⟨x, y, d, _, rfl, hz⟩ := mem_depth_to_voxel.mp hp
  simpa using hz

/-- C2 (witness): the emission conjunct of the amended converter theorem
instantiated at pixel (1, 0) of the 2x2 example map. -/
theorem C2_witness :
    (((1 : Int), (0 : Int), wrap16 5 * 1) : Int × Int × Int) ∈
      Utils.depth_to_voxel [[0, 5], [5, 0]] 1 :=
  (C2_depth_converter [[0, 5], [5, 0]] 1).2.1 1 0 5 (by decide) (by decide)

/-- C9 (counterexample): on an all-zero depth map the converter returns the
empty cloud as an ordinary value; the conversion is a total function and no
EmptyPointCloud error exists anywhere in the code to be raised. -/
theorem C9_counterexample : Utils.depth_to_voxel [[0, 0], [0, 0]] 1 = [] := by decide

/-- C9 (amended): for every depth map all of whose samples are zero and every
scale, the converter silently returns the empty point cloud. -/
theorem C9_all_zero_empty (img : List (List Int)) (scale : Int)
    (h : ∀ row ∈ img, ∀ d ∈ row, d = 0) :
    Utils.depth_to_voxel img scale = [] := by
  unfold Utils.depth_to_voxel
  rw [List.filter_eq_nil_iff]
  intro p hp
  rw [mem_gridPoints] at hp
  obtain ⟨i, row, hi, hp⟩ := hp
  rw [mem_rowPoints] at hp
  obtain ⟨j, d, hj, rfl⟩ := hp
  have hd : d = 0 := h row (List.get?_mem hi) d (List.get?_mem hj)
  subst hd
  norm_num [wrap16]

/-- C9 (witness): the amended theorem applied to a concrete all-zero depth
map and a nontrivial scale. -/
theorem C9_witness : Utils.depth_to_voxel [[0], [0]] 7 = [] :=
  C9_all_zero_empty [[0], [0]] 7 (by decide)

